import Mathlib

/-!
Shallow embedding of the extraction and caching logic of
`src/public/script.js`, the single source file of the Scrapper repository
(an Express web-scraper service).

Modelling conventions, stated once here:

* HTML attribute values are modelled as `String`, with `""` standing for
  both an absent attribute and an attribute whose value is the empty
  string: the source only ever consumes attribute values through JS
  truthiness (`a || b`, `if (src)`), under which `undefined` and `""`
  behave identically.
* The document tree handed to the extractor by cheerio is modelled as the
  lists of the relevant elements in document order (`$('img').each`
  iterates in document order), plus the text contents the source reads
  wholesale (`$('title').text()`, `$('body').text()`).  Per cheerio's
  documented semantics, `.text()` on a selection returns the concatenated
  text of *all* matched elements, so the title selection is modelled as
  the list of the text contents of every title element, joined.
* The platform URL resolver `new URL(ref, base)` is an external library;
  the extractors take it as an explicit function parameter
  `resolve : String → String → Option String` (`none` models the thrown
  `TypeError` the source catches).  The `src.startsWith('/')` branch of
  the source rebuilds `protocol + '//' + host` from `baseUrl`; at the
  only call sites `baseUrl` is `new URL(url).origin`, for which that
  rebuild returns `baseUrl` itself, so the branch is modelled as direct
  concatenation `baseUrl ++ src`.
* JS strings are UTF-16 and `String.prototype.length` counts code units;
  the embedding uses Lean `String`/`Char`, identical on the ASCII inputs
  all concrete scenarios use.
* The in-memory cache is a JS `Map`, modelled as a `List (String × α)` of
  its entries in insertion order (the iteration order a `Map` guarantees:
  `set` on a fresh key appends, `set` on an existing key overwrites in
  place, `keys().next()` returns the first entry's key).
-/

namespace Scrapper

open List

/-- The JS whitespace class `\s`, restricted to ASCII whitespace
characters (the source's `cleanText` only distinguishes whitespace from
non-whitespace, and every concrete scenario uses ASCII). -/
def isJsWS (c : Char) : Bool :=
  c == ' ' || c == '\t' || c == '\n' || c == '\r' || c == '\x0b' || c == '\x0c'

/-- `String.prototype.trim`: drop leading and trailing whitespace. -/
def trimWS (l : List Char) : List Char :=
  ((l.dropWhile isJsWS).reverse.dropWhile isJsWS).reverse

/-- `replace(/\s+/g, ' ')`: collapse every run of whitespace to a single
space.  The flag records whether the previous character was whitespace. -/
def collapseRun : Bool → List Char → List Char
  | _, [] => []
  | prevWS, c :: rest =>
    if isJsWS c then
      if prevWS then collapseRun true rest else ' ' :: collapseRun true rest
    else c :: collapseRun false rest

/-- `cleanText` of script.js: `text.trim().replace(/\s+/g, ' ')`, with a
falsy input mapped to `''`. -/
def cleanText (s : String) : String :=
  String.mk (collapseRun false (trimWS s.data))

/-- Whether `sub` occurs as a contiguous run inside `l`
(JS `String.prototype.includes`, on char lists). -/
def hasSubList (sub : List Char) : List Char → Bool
  | [] => sub.isEmpty
  | c :: rest => sub.isPrefixOf (c :: rest) || hasSubList sub rest

/-- JS `s.includes(sub)`. -/
def strContains (s sub : String) : Bool :=
  hasSubList sub.data s.data

/-- JS `s.startsWith(p)`. -/
def strStartsWith (s p : String) : Bool :=
  p.data.isPrefixOf s.data

/-- JS `s.toLowerCase()` (ASCII; identical to the JS behaviour on every
input the source's alt-text filter sees in the scenarios below). -/
def strLower (s : String) : String :=
  String.mk (s.data.map Char.toLower)

/-- JS `a || b` on strings: `""` (and absent) is falsy. -/
def jsOrS (a b : String) : String :=
  if a = "" then b else a

/-- JS `s.substring(0, n)`. -/
def strTake (s : String) (n : Nat) : String :=
  String.mk (s.data.take n)

/-! ## Image extraction (`extractImages`, script.js lines 962–998) -/

/-- An `img` element: the attributes `extractImages` reads. -/
structure ImgElem where
  src : String
  dataSrc : String
  dataLazy : String
  alt : String
deriving Repr, DecidableEq

/-- One entry of the extracted `images` sequence. -/
structure ImageRec where
  src : String
  alt : String
deriving Repr, DecidableEq

/-- `$(img).attr('src') || $(img).attr('data-src') || $(img).attr('data-lazy')`. -/
def imgRawSrc (img : ImgElem) : String :=
  jsOrS img.src (jsOrS img.dataSrc img.dataLazy)

/-- The URL-resolution block of `extractImages`:
`if (src.startsWith('/')) src = protocol + '//' + host + src;
else if (!src.startsWith('http')) try { src = new URL(src, baseUrl).href } catch { skip }`.
A source already starting with `http` is passed through untouched. -/
def resolveImgSrc (resolve : String → String → Option String)
    (baseUrl src : String) : Option String :=
  if strStartsWith src "/" then some (baseUrl ++ src)
  else if strStartsWith src "http" then some src
  else resolve src baseUrl

/-- The exclusion filter of `extractImages`: the image is kept when its
resolved source contains none of `icon`, `logo`, `favicon`, `pixel`
(case-sensitive) and its lower-cased alt text contains neither `icon`
nor `logo`. -/
def imageKeep (src alt : String) : Bool :=
  !(strContains src "icon") && !(strContains src "logo") &&
  !(strContains src "favicon") && !(strContains src "pixel") &&
  !(strContains (strLower alt) "icon") && !(strContains (strLower alt) "logo")

/-- The `$('img').each` loop of `extractImages`.  `seen` is the
`seenImages` set.  Note the source checks `seenImages.has(src)` on the
*raw* attribute value before resolution, but `seenImages.add(src)` runs
after `src` has been reassigned to the resolved URL. -/
def extractImagesAux (resolve : String → String → Option String)
    (baseUrl : String) : List ImgElem → List String → List ImageRec
  | [], _ => []
  | img :: rest, seen =>
    let src0 := imgRawSrc img
    if src0 ≠ "" ∧ src0 ∉ seen then
      match resolveImgSrc resolve baseUrl src0 with
      | none => extractImagesAux resolve baseUrl rest seen
      | some src =>
        if imageKeep src img.alt = true then
          ⟨src, cleanText img.alt⟩ :: extractImagesAux resolve baseUrl rest (src :: seen)
        else
          extractImagesAux resolve baseUrl rest seen
    else
      extractImagesAux resolve baseUrl rest seen

/-- `extractImages($, baseUrl)`: run the loop, then `images.slice(0, 10)`. -/
def extractImages (resolve : String → String → Option String)
    (baseUrl : String) (imgs : List ImgElem) : List ImageRec :=
  (extractImagesAux resolve baseUrl imgs []).take 10

/-- A resolver that always fails; usable wherever the resolver is never
consulted (all sources absolute or `/`-rooted). -/
def noResolve : String → String → Option String :=
  fun _ _ => none

/-! ## Link extraction (`extractLinks`, script.js lines 1001–1030) -/

/-- An anchor matched by `$('a[href]')`: its `href` attribute and raw
text content. -/
structure AnchorElem where
  href : String
  text : String
deriving Repr, DecidableEq

/-- One entry of the extracted `links` sequence. -/
structure LinkRec where
  href : String
  text : String
deriving Repr, DecidableEq

/-- The URL-resolution block of `extractLinks`: like the image one, but an
href starting with `mailto` or `tel` is also passed through unresolved. -/
def resolveHref (resolve : String → String → Option String)
    (baseUrl href : String) : Option String :=
  if strStartsWith href "/" then some (baseUrl ++ href)
  else if !strStartsWith href "http" && !strStartsWith href "mailto" &&
      !strStartsWith href "tel" then
    resolve href baseUrl
  else some href

/-- The `$('a[href]').each` loop of `extractLinks`.  As for images, the
`seenLinks.has` check runs on the raw href, the `seenLinks.add` on the
resolved one, and both the push and the add are guarded by the text
length filter `text.length > 3 && text.length < 100`. -/
def extractLinksAux (resolve : String → String → Option String)
    (baseUrl : String) : List AnchorElem → List String → List LinkRec
  | [], _ => []
  | a :: rest, seen =>
    let text := cleanText a.text
    if a.href ≠ "" ∧ text ≠ "" ∧ a.href ∉ seen then
      match resolveHref resolve baseUrl a.href with
      | none => extractLinksAux resolve baseUrl rest seen
      | some href =>
        if 3 < text.length ∧ text.length < 100 then
          ⟨href, text⟩ :: extractLinksAux resolve baseUrl rest (href :: seen)
        else
          extractLinksAux resolve baseUrl rest seen
    else
      extractLinksAux resolve baseUrl rest seen

/-- `extractLinks($, baseUrl)`: run the loop, then `links.slice(0, 20)`. -/
def extractLinks (resolve : String → String → Option String)
    (baseUrl : String) (anchors : List AnchorElem) : List LinkRec :=
  (extractLinksAux resolve baseUrl anchors []).take 20

/-! ## Headings and paragraphs (script.js lines 1033–1060) -/

/-- A heading element (`h1`–`h6`): its tag name and raw text. -/
structure HeadingElem where
  tag : String
  text : String
deriving Repr, DecidableEq

/-- One entry of the extracted `headings` sequence. -/
structure HeadingRec where
  level : String
  text : String
deriving Repr, DecidableEq

/-- The un-sliced heading list: `heading.tagName.toLowerCase()` as level,
cleaned text, kept when `text && text.length > 2`. -/
def extractHeadingsAll (hs : List HeadingElem) : List HeadingRec :=
  hs.filterMap fun h =>
    let text := cleanText h.text
    if text ≠ "" ∧ 2 < text.length then some ⟨strLower h.tag, text⟩ else none

/-- `extractHeadings($)`: the loop, then `headings.slice(0, 15)`. -/
def extractHeadings (hs : List HeadingElem) : List HeadingRec :=
  (extractHeadingsAll hs).take 15

/-- The un-sliced paragraph list: cleaned text of each `p`, kept when
`text && text.length > 20 && text.length < 500`. -/
def extractParagraphsAll (ps : List String) : List String :=
  ps.filterMap fun p =>
    let text := cleanText p
    if text ≠ "" ∧ 20 < text.length ∧ text.length < 500 then some text else none

/-- `extractParagraphs($)`: the loop, then `paragraphs.slice(0, 10)`. -/
def extractParagraphs (ps : List String) : List String :=
  (extractParagraphsAll ps).take 10

/-! ## Per-document fields of `scrapeWebpage` (script.js lines 1063–1135) -/

/-- A `meta` element: the three attributes the source reads.  `""` models
an absent attribute (see the header). -/
structure MetaElem where
  name : String
  property : String
  content : String
deriving Repr, DecidableEq

/-- The parsed document tree, reduced to the element lists and text
contents the extraction pipeline consumes, each in document order. -/
structure Document where
  titleTexts : List String
  metas : List MetaElem
  imgs : List ImgElem
  anchors : List AnchorElem
  headingElems : List HeadingElem
  paraTexts : List String
  bodyText : String
deriving Repr, DecidableEq

/-- `$('meta[name=k]').attr('content')`: the content attribute of the
first meta element whose `name` attribute is `k`; `""` models the
`undefined` of an empty selection or a missing content attribute. -/
def firstContentByName (metas : List MetaElem) (k : String) : String :=
  match metas.find? (fun m => m.name = k) with
  | some m => m.content
  | none => ""

/-- `$('meta[property=k]').attr('content')`, analogously. -/
def firstContentByProp (metas : List MetaElem) (k : String) : String :=
  match metas.find? (fun m => m.property = k) with
  | some m => m.content
  | none => ""

/-- `cleanText($('title').text()) || 'No title found'`.  Cheerio's
`.text()` concatenates the text of every matched title element. -/
def pageTitle (doc : Document) : String :=
  jsOrS (cleanText (String.join doc.titleTexts)) "No title found"

/-- The raw description:
`$('meta[name="description"]').attr('content') ||
 $('meta[property="og:description"]').attr('content') ||
 'No description available'`. -/
def pageDescriptionRaw (doc : Document) : String :=
  jsOrS (firstContentByName doc.metas "description")
    (jsOrS (firstContentByProp doc.metas "og:description")
      "No description available")

/-- The stored description field: `cleanText(description)` applied to the
raw `||`-chain result. -/
def pageDescription (doc : Document) : String :=
  cleanText (pageDescriptionRaw doc)

/-- `cleanText($('body').text()).substring(0, 1000)`. -/
def bodyPreview (doc : Document) : String :=
  strTake (cleanText doc.bodyText) 1000

/-! ## The result cache and the `/scrape` endpoint
(script.js lines 939, 1156–1200)

`scrapedResults` is a JS `Map`, modelled as its entry list in insertion
order. -/

/-- `Map.prototype.has`. -/
def mapHas {α : Type} (c : List (String × α)) (k : String) : Bool :=
  c.any (fun p => p.1 = k)

/-- `Map.prototype.get` (`none` models `undefined`). -/
def mapGet {α : Type} (c : List (String × α)) (k : String) : Option α :=
  (c.find? (fun p => p.1 = k)).map Prod.snd

/-- `Map.prototype.set`: overwrite in place when the key exists, append
otherwise. -/
def mapSet {α : Type} (c : List (String × α)) (k : String) (v : α) :
    List (String × α) :=
  if mapHas c k then c.map (fun p => if p.1 = k then (k, v) else p)
  else c ++ [(k, v)]

/-- `Map.prototype.delete k` (a `Map` never holds duplicate keys). -/
def mapDelete {α : Type} (c : List (String × α)) (k : String) :
    List (String × α) :=
  c.filter (fun p => p.1 ≠ k)

/-- The clean-up step of the `/scrape` handler:
`if (scrapedResults.size > 50) { delete scrapedResults.keys().next().value }`. -/
def cacheEvict {α : Type} (c : List (String × α)) : List (String × α) :=
  if 50 < c.length then
    match c.head? with
    | some p => mapDelete c p.1
    | none => c
  else c

/-- `scrapedResults.set(url, data)` followed by the clean-up step. -/
def cachePut {α : Type} (c : List (String × α)) (k : String) (v : α) :
    List (String × α) :=
  cacheEvict (mapSet c k v)

/-- The outcome of `await scrapeWebpage(url)`: a record, or the thrown
error's message. -/
inductive FetchOutcome (α : Type) where
  | ok : α → FetchOutcome α
  | err : String → FetchOutcome α
deriving Repr, DecidableEq

/-- The HTTP response the `/scrape` handler sends. -/
inductive Response (α : Type) where
  | badRequest : String → Response α
  | okJson : α → Response α
  | serverError : String → Response α
deriving Repr, DecidableEq

/-- The `/scrape` request handler, as a state transition on the cache.
`url` is `req.body.url` (`""` models a missing or empty body field, both
falsy); `urlValid` is the outcome of the `new URL(url)` validation
(external parser); `fetch` is the outcome of `scrapeWebpage`.  The
source checks `has` then `get`; a `Map` answers `get` with a value
exactly when `has` is true, so the model branches on `mapGet` alone. -/
def scrapePost {α : Type} (c : List (String × α)) (url : String)
    (urlValid : Bool) (fetch : FetchOutcome α) :
    List (String × α) × Response α :=
  if url = "" then (c, Response.badRequest "URL is required")
  else if urlValid = false then (c, Response.badRequest "Invalid URL format")
  else
    match mapGet c url with
    | some v => (c, Response.okJson v)
    | none =>
      match fetch with
      | FetchOutcome.err e =>
        (c, Response.serverError e)
      | FetchOutcome.ok v =>
        (cachePut c url v, Response.okJson v)

/-! ## Helper lemmas -/

theorem ne_empty_of_startsWith_http {s : String}
    (h : strStartsWith s "http" = true) : s ≠ "" := by
  intro he
  subst he
  exact absurd h (by decide)

theorem not_slash_of_startsWith_http {s : String}
    (h : strStartsWith s "http" = true) : strStartsWith s "/" = false := by
  unfold strStartsWith at h ⊢
  have hh : ("http" : String).data = 'h' :: 't' :: 't' :: 'p' :: [] := rfl
  have hsl : ("/" : String).data = '/' :: [] := rfl
  rw [hh] at h
  rw [hsl]
  cases hd : s.data with
  | nil => rw [hd] at h; exact absurd h (by decide)
  | cons c cs =>
    rw [hd] at h
    simp only [List.isPrefixOf, Bool.and_eq_true, beq_iff_eq] at h
    obtain ⟨hc, _⟩ := h
    subst hc
    simp [List.isPrefixOf]

/-! ## Claim C1 -/

/-- The two-image document of the C1 counterexample: both `src`
attributes are the same `/`-rooted relative path. -/
def c1Imgs : List ImgElem :=
  [⟨"/a.png", "", "", ""⟩, ⟨"/a.png", "", "", "second"⟩]

/-- C1 counterexample: two image elements that resolve to the same
absolute URL (both written `/a.png` against base `http://x.com`) produce
TWO entries in the extracted images, each carrying its own alt text —
the claimed de-duplication by resolved URL does not happen, because the
source checks `seenImages.has` on the raw attribute value but adds the
resolved URL to the set. -/
theorem c1_counterexample :
    extractImages noResolve "http://x.com" c1Imgs =
      [⟨"http://x.com/a.png", ""⟩, ⟨"http://x.com/a.png", "second"⟩] ∧
    (ImageRec.mk "http://x.com/a.png" "").src =
      (ImageRec.mk "http://x.com/a.png" "second").src := by
  decide

/-- C1 amended: de-duplication keys on the raw `src` attribute value as
tested against the set of previously stored resolved URLs.  When the
duplicate occurrences are written identically in absolute form (the
attribute starts with `http`, so resolution passes it through
unchanged), the record contains exactly one entry for that URL carrying
the first-seen alt text; occurrences written in relative form can
produce duplicate entries for the same resolved URL. -/
theorem c1_amended (resolve : String → String → Option String)
    (baseUrl s a1 a2 : String) (hs : strStartsWith s "http" = true)
    (hk1 : imageKeep s a1 = true) (_hk2 : imageKeep s a2 = true) :
    extractImages resolve baseUrl [⟨s, "", "", a1⟩, ⟨s, "", "", a2⟩] =
      [⟨s, cleanText a1⟩] := by
  have hne : s ≠ "" := ne_empty_of_startsWith_http hs
  have hns : strStartsWith s "/" = false := not_slash_of_startsWith_http hs
  simp [extractImages, extractImagesAux, imgRawSrc, jsOrS, resolveImgSrc,
    hne, hns, hs, hk1]

/-- C1 amended witness: the amended statement evaluated on the two-image
document whose srcs are the same absolute URL. -/
theorem c1_amended_witness :
    extractImages noResolve "http://x.com"
      [⟨"http://x.com/a.png", "", "", ""⟩,
       ⟨"http://x.com/a.png", "", "", "second"⟩] =
      [⟨"http://x.com/a.png", cleanText ""⟩] :=
  c1_amended noResolve "http://x.com" "http://x.com/a.png" "" "second"
    (by decide) (by decide) (by decide)

/-! ## Claim C2 -/

/-- The C2 counterexample document: a `name="description"` meta whose
content is whitespace-only, followed by a non-empty `og:description`. -/
def c2Doc : Document :=
  ⟨[], [⟨"description", "", "   "⟩, ⟨"", "og:description", "A real description."⟩],
   [], [], [], [], ""⟩

/-- C2 counterexample: a whitespace-only `name="description"` content is
truthy, so the `||` chain selects it before cleaning; `cleanText` then
reduces it to the empty string.  The stored description is `""` — empty,
not the `og:description` fallback and not the sentinel — refuting both
the non-emptiness and the fall-back-after-cleaning parts of the claim. -/
theorem c2_counterexample :
    pageDescription c2Doc = "" ∧
    firstContentByProp c2Doc.metas "og:description" = "A real description." := by
  decide

/-- C2 amended: the fallback chain is decided on the RAW content
attributes (JS truthiness, before cleaning): the description is
`cleanText` of the first non-empty raw content among the
`name="description"` meta, the `property="og:description"` meta, and the
sentinel `"No description available"`.  A whitespace-only content is
treated as present and yields an empty cleaned description. -/
theorem c2_amended (doc : Document) :
    (firstContentByName doc.metas "description" ≠ "" →
      pageDescription doc = cleanText (firstContentByName doc.metas "description")) ∧
    (firstContentByName doc.metas "description" = "" →
      firstContentByProp doc.metas "og:description" ≠ "" →
      pageDescription doc = cleanText (firstContentByProp doc.metas "og:description")) ∧
    (firstContentByName doc.metas "description" = "" →
      firstContentByProp doc.metas "og:description" = "" →
      pageDescription doc = "No description available") := by
  refine ⟨?_, ?_, ?_⟩
  · intro h1
    simp [pageDescription, pageDescriptionRaw, jsOrS, h1]
  · intro h1 h2
    simp [pageDescription, pageDescriptionRaw, jsOrS, h1, h2]
  · intro h1 h2
    simp only [pageDescription, pageDescriptionRaw, jsOrS, h1, h2, if_pos rfl]
    decide

/-- C2 amended witness document: a present, messy `name="description"`. -/
def c2WDoc : Document :=
  ⟨[], [⟨"description", "", "  spaced   out  "⟩], [], [], [], [], ""⟩

/-- C2 amended witness: on `c2WDoc` the description is the cleaned
`name="description"` content. -/
theorem c2_witness :
    pageDescription c2WDoc = cleanText (firstContentByName c2WDoc.metas "description") :=
  (c2_amended c2WDoc).1 (by decide)

/-! ## Claim C5 -/

/-- The C5 counterexample document: two title elements. -/
def c5Doc : Document := ⟨["A", "B"], [], [], [], [], [], ""⟩

/-- C5 counterexample: with two title elements `A` and `B`, the stored
title is `"AB"` — cheerio's `$('title').text()` concatenates the text of
every matched title element — not the claimed text `"A"` of the first
title element. -/
theorem c5_counterexample :
    pageTitle c5Doc = "AB" ∧ ("AB" : String) ≠ "A" := by
  decide

/-- C5 amended: the title is the cleaned concatenation of the text of
ALL title elements, with sentinel `"No title found"` when that is empty
(no title elements, or whitespace-only text); on single-title documents
this is the cleaned text of that title, and
`<title>  Hello   World </title>` yields `"Hello World"`. -/
theorem c5_amended (doc : Document) :
    (cleanText (String.join doc.titleTexts) = "" → pageTitle doc = "No title found") ∧
    (cleanText (String.join doc.titleTexts) ≠ "" →
      pageTitle doc = cleanText (String.join doc.titleTexts)) ∧
    (doc.titleTexts = ["  Hello   World "] → pageTitle doc = "Hello World") := by
  refine ⟨?_, ?_, ?_⟩
  · intro h
    simp [pageTitle, jsOrS, h]
  · intro h
    simp [pageTitle, jsOrS, h]
  · intro h
    simp only [pageTitle, h]
    decide

/-- C5 amended witness document: one messy title element. -/
def c5WDoc : Document := ⟨["  Hello   World "], [], [], [], [], [], ""⟩

/-- C5 amended witness: the `Hello World` scenario evaluated. -/
theorem c5_witness : pageTitle c5WDoc = "Hello World" :=
  (c5_amended c5WDoc).2.2 (by decide)

/-! ## Inversion lemmas for the extraction loops -/

/-- Every record emitted by the image loop arises from some input element
whose raw source resolved successfully and passed the exclusion filter,
and carries that element's resolved source and cleaned alt text. -/
theorem mem_extractImagesAux {resolve : String → String → Option String}
    {baseUrl : String} :
    ∀ {imgs : List ImgElem} {seen : List String} {r : ImageRec},
      r ∈ extractImagesAux resolve baseUrl imgs seen →
      ∃ img ∈ imgs, ∃ src,
        resolveImgSrc resolve baseUrl (imgRawSrc img) = some src ∧
        imageKeep src img.alt = true ∧ r = ⟨src, cleanText img.alt⟩ := by
  intro imgs
  induction imgs with
  | nil => intro seen r h; simp [extractImagesAux] at h
  | cons img rest ih =>
    intro seen r h
    simp only [extractImagesAux] at h
    by_cases hc : imgRawSrc img ≠ "" ∧ imgRawSrc img ∉ seen
    · rw [if_pos hc] at h
      cases hres : resolveImgSrc resolve baseUrl (imgRawSrc img) with
      | none =>
        simp only [hres] at h
        obtain ⟨i, hi, hrest⟩ := ih h
        exact ⟨i, List.mem_cons_of_mem _ hi, hrest⟩
      | some src =>
        simp only [hres] at h
        by_cases hk : imageKeep src img.alt = true
        · rw [if_pos hk] at h
          rcases List.mem_cons.mp h with heq | hmem
          · exact ⟨img, List.mem_cons_self _ _, src, hres, hk, heq⟩
          · obtain ⟨i, hi, hrest⟩ := ih hmem
            exact ⟨i, List.mem_cons_of_mem _ hi, hrest⟩
        · rw [if_neg hk] at h
          obtain ⟨i, hi, hrest⟩ := ih h
          exact ⟨i, List.mem_cons_of_mem _ hi, hrest⟩
    · rw [if_neg hc] at h
      obtain ⟨i, hi, hrest⟩ := ih h
      exact ⟨i, List.mem_cons_of_mem _ hi, hrest⟩

/-- Every record emitted by the link loop arises from some input anchor
whose href resolved successfully, and carries that anchor's resolved
href and cleaned text, whose length passed the `> 3 && < 100` filter. -/
theorem mem_extractLinksAux {resolve : String → String → Option String}
    {baseUrl : String} :
    ∀ {anchors : List AnchorElem} {seen : List String} {l : LinkRec},
      l ∈ extractLinksAux resolve baseUrl anchors seen →
      ∃ a ∈ anchors, ∃ href,
        resolveHref resolve baseUrl a.href = some href ∧
        l = ⟨href, cleanText a.text⟩ ∧
        3 < (cleanText a.text).length ∧ (cleanText a.text).length < 100 := by
  intro anchors
  induction anchors with
  | nil => intro seen l h; simp [extractLinksAux] at h
  | cons a rest ih =>
    intro seen l h
    simp only [extractLinksAux] at h
    by_cases hc : a.href ≠ "" ∧ cleanText a.text ≠ "" ∧ a.href ∉ seen
    · rw [if_pos hc] at h
      cases hres : resolveHref resolve baseUrl a.href with
      | none =>
        simp only [hres] at h
        obtain ⟨i, hi, hrest⟩ := ih h
        exact ⟨i, List.mem_cons_of_mem _ hi, hrest⟩
      | some href =>
        simp only [hres] at h
        by_cases hlen : 3 < (cleanText a.text).length ∧ (cleanText a.text).length < 100
        · rw [if_pos hlen] at h
          rcases List.mem_cons.mp h with heq | hmem
          · exact ⟨a, List.mem_cons_self _ _, href, hres, heq, hlen⟩
          · obtain ⟨i, hi, hrest⟩ := ih hmem
            exact ⟨i, List.mem_cons_of_mem _ hi, hrest⟩
        · rw [if_neg hlen] at h
          obtain ⟨i, hi, hrest⟩ := ih h
          exact ⟨i, List.mem_cons_of_mem _ hi, hrest⟩
    · rw [if_neg hc] at h
      obtain ⟨i, hi, hrest⟩ := ih h
      exact ⟨i, List.mem_cons_of_mem _ hi, hrest⟩

/-! ## Claim C10 -/

/-- C10: the exclusion filter is case-sensitive on the resolved source —
every surviving image's source contains none of the lowercase substrings
`icon`, `logo`, `favicon`, `pixel` — and case-insensitive on alt text:
a source containing only `Logo` or `ICON` survives, while an alt text
containing `ICON` or `Icon` in any case is dropped. -/
theorem c10_exclusion_case_sensitivity (resolve : String → String → Option String)
    (baseUrl : String) (imgs : List ImgElem) :
    (∀ r ∈ extractImages resolve baseUrl imgs,
      strContains r.src "icon" = false ∧ strContains r.src "logo" = false ∧
      strContains r.src "favicon" = false ∧ strContains r.src "pixel" = false) ∧
    extractImages resolve baseUrl [⟨"http://x.com/Logo.png", "", "", ""⟩] =
      [⟨"http://x.com/Logo.png", ""⟩] ∧
    extractImages resolve baseUrl [⟨"http://x.com/ICON.png", "", "", ""⟩] =
      [⟨"http://x.com/ICON.png", ""⟩] ∧
    extractImages resolve baseUrl [⟨"http://x.com/logo.png", "", "", ""⟩] = [] ∧
    extractImages resolve baseUrl [⟨"http://x.com/img.png", "", "", "Site ICON"⟩] = [] ∧
    extractImages resolve baseUrl [⟨"http://x.com/img.png", "", "", "Site Icon"⟩] = [] := by
  refine ⟨?_, rfl, rfl, rfl, rfl, rfl⟩
  intro r hr
  have hr' : r ∈ (extractImagesAux resolve baseUrl imgs []).take 10 := hr
  have hmem := List.take_subset _ _ hr'
  obtain ⟨img, _, src, _, hk, rfl⟩ := mem_extractImagesAux hmem
  simp only [imageKeep, Bool.and_eq_true, Bool.not_eq_true'] at hk
  obtain ⟨⟨⟨⟨⟨h1, h2⟩, h3⟩, h4⟩, _⟩, _⟩ := hk
  exact ⟨h1, h2, h3, h4⟩

/-- C10 witness: the universal part of C10 evaluated on a surviving
concrete image. -/
theorem c10_witness :
    strContains "http://x.com/a.png" "icon" = false ∧
    strContains "http://x.com/a.png" "logo" = false ∧
    strContains "http://x.com/a.png" "favicon" = false ∧
    strContains "http://x.com/a.png" "pixel" = false :=
  (c10_exclusion_case_sensitivity noResolve "http://x.com"
      [⟨"http://x.com/a.png", "", "", ""⟩]).1
    ⟨"http://x.com/a.png", ""⟩ (by decide)

/-! ## Claim C7 -/

/-- C7: every extracted link's cleaned text length is strictly between 3
and 100; a 3-character text is excluded, a 4-character text included. -/
theorem c7_link_text_length_bounds (resolve : String → String → Option String)
    (baseUrl : String) (anchors : List AnchorElem) :
    (∀ l ∈ extractLinks resolve baseUrl anchors,
      3 < l.text.length ∧ l.text.length < 100) ∧
    extractLinks resolve baseUrl [⟨"http://x.com/p", "abc"⟩] = [] ∧
    extractLinks resolve baseUrl [⟨"http://x.com/p", "abcd"⟩] =
      [⟨"http://x.com/p", "abcd"⟩] := by
  refine ⟨?_, rfl, rfl⟩
  intro l hl
  have hl' : l ∈ (extractLinksAux resolve baseUrl anchors []).take 20 := hl
  have hmem := List.take_subset _ _ hl'
  obtain ⟨a, _, href, _, rfl, hlen⟩ := mem_extractLinksAux hmem
  exact hlen

/-- C7 witness: the universal part of C7 evaluated on a concrete
extracted link of text length 4. -/
theorem c7_witness :
    3 < (LinkRec.mk "http://x.com/p" "abcd").text.length ∧
    (LinkRec.mk "http://x.com/p" "abcd").text.length < 100 :=
  (c7_link_text_length_bounds noResolve "http://x.com"
      [⟨"http://x.com/p", "abcd"⟩]).1
    ⟨"http://x.com/p", "abcd"⟩ (by decide)

/-! ## Claim C8 -/

/-- The per-element outcome of the image loop ignoring the seen-set: the
record element `img` contributes when its source is present, resolves,
and passes the filter. -/
def imgCandidate (resolve : String → String → Option String)
    (baseUrl : String) (img : ImgElem) : Option ImageRec :=
  if imgRawSrc img = "" then none
  else
    match resolveImgSrc resolve baseUrl (imgRawSrc img) with
    | none => none
    | some src =>
      if imageKeep src img.alt = true then some ⟨src, cleanText img.alt⟩
      else none

/-- The per-element outcome of the link loop ignoring the seen-set. -/
def linkCandidate (resolve : String → String → Option String)
    (baseUrl : String) (a : AnchorElem) : Option LinkRec :=
  if a.href = "" ∨ cleanText a.text = "" then none
  else
    match resolveHref resolve baseUrl a.href with
    | none => none
    | some href =>
      if 3 < (cleanText a.text).length ∧ (cleanText a.text).length < 100 then
        some ⟨href, cleanText a.text⟩
      else none

/-- The image loop's output is a sublist (same relative order, nothing
re-ordered) of the per-element candidate records in document order. -/
theorem extractImagesAux_sublist (resolve : String → String → Option String)
    (baseUrl : String) :
    ∀ (imgs : List ImgElem) (seen : List String),
      extractImagesAux resolve baseUrl imgs seen <+
        imgs.filterMap (imgCandidate resolve baseUrl) := by
  intro imgs
  induction imgs with
  | nil => intro seen; simp [extractImagesAux]
  | cons img rest ih =>
    intro seen
    rw [List.filterMap_cons]
    by_cases h0 : imgRawSrc img = ""
    · have hcand : imgCandidate resolve baseUrl img = none := by
        simp [imgCandidate, h0]
      rw [hcand]
      have hstep : extractImagesAux resolve baseUrl (img :: rest) seen =
          extractImagesAux resolve baseUrl rest seen := by
        simp only [extractImagesAux]
        rw [if_neg]
        intro hcon
        exact hcon.1 h0
      rw [hstep]
      exact ih seen
    · cases hres : resolveImgSrc resolve baseUrl (imgRawSrc img) with
      | none =>
        have hcand : imgCandidate resolve baseUrl img = none := by
          simp [imgCandidate, h0, hres]
        rw [hcand]
        have hstep : extractImagesAux resolve baseUrl (img :: rest) seen =
            extractImagesAux resolve baseUrl rest seen := by
          simp only [extractImagesAux]
          by_cases hc : imgRawSrc img ≠ "" ∧ imgRawSrc img ∉ seen
          · rw [if_pos hc]
            simp only [hres]
          · rw [if_neg hc]
        rw [hstep]
        exact ih seen
      | some src =>
        by_cases hk : imageKeep src img.alt = true
        · have hcand : imgCandidate resolve baseUrl img =
              some ⟨src, cleanText img.alt⟩ := by
            simp [imgCandidate, h0, hres, hk]
          rw [hcand]
          by_cases hseen : imgRawSrc img ∈ seen
          · have hstep : extractImagesAux resolve baseUrl (img :: rest) seen =
                extractImagesAux resolve baseUrl rest seen := by
              simp only [extractImagesAux]
              rw [if_neg]
              intro hcon
              exact hcon.2 hseen
            rw [hstep]
            exact (ih seen).cons _
          · have hstep : extractImagesAux resolve baseUrl (img :: rest) seen =
                ⟨src, cleanText img.alt⟩ ::
                  extractImagesAux resolve baseUrl rest (src :: seen) := by
              simp only [extractImagesAux]
              rw [if_pos ⟨h0, hseen⟩]
              simp only [hres]
              rw [if_pos hk]
            rw [hstep]
            exact (ih (src :: seen)).cons₂ _
        · have hcand : imgCandidate resolve baseUrl img = none := by
            simp [imgCandidate, h0, hres, hk]
          rw [hcand]
          have hstep : extractImagesAux resolve baseUrl (img :: rest) seen =
              extractImagesAux resolve baseUrl rest seen := by
            simp only [extractImagesAux]
            by_cases hc : imgRawSrc img ≠ "" ∧ imgRawSrc img ∉ seen
            · rw [if_pos hc]
              simp only [hres]
              rw [if_neg hk]
            · rw [if_neg hc]
          rw [hstep]
          exact ih seen

/-- The link loop's output is a sublist of the per-element candidate
records in document order. -/
theorem extractLinksAux_sublist (resolve : String → String → Option String)
    (baseUrl : String) :
    ∀ (anchors : List AnchorElem) (seen : List String),
      extractLinksAux resolve baseUrl anchors seen <+
        anchors.filterMap (linkCandidate resolve baseUrl) := by
  intro anchors
  induction anchors with
  | nil => intro seen; simp [extractLinksAux]
  | cons a rest ih =>
    intro seen
    rw [List.filterMap_cons]
    by_cases h0 : a.href = "" ∨ cleanText a.text = ""
    · have hcand : linkCandidate resolve baseUrl a = none := by
        simp [linkCandidate, h0]
      rw [hcand]
      have hstep : extractLinksAux resolve baseUrl (a :: rest) seen =
          extractLinksAux resolve baseUrl rest seen := by
        simp only [extractLinksAux]
        rw [if_neg]
        intro hcon
        rcases h0 with h0 | h0
        · exact hcon.1 h0
        · exact hcon.2.1 h0
      rw [hstep]
      exact ih seen
    · push_neg at h0
      cases hres : resolveHref resolve baseUrl a.href with
      | none =>
        have hcand : linkCandidate resolve baseUrl a = none := by
          simp [linkCandidate, h0.1, h0.2, hres]
        rw [hcand]
        have hstep : extractLinksAux resolve baseUrl (a :: rest) seen =
            extractLinksAux resolve baseUrl rest seen := by
          simp only [extractLinksAux]
          by_cases hc : a.href ≠ "" ∧ cleanText a.text ≠ "" ∧ a.href ∉ seen
          · rw [if_pos hc]
            simp only [hres]
          · rw [if_neg hc]
        rw [hstep]
        exact ih seen
      | some href =>
        by_cases hlen : 3 < (cleanText a.text).length ∧ (cleanText a.text).length < 100
        · have hcand : linkCandidate resolve baseUrl a =
              some ⟨href, cleanText a.text⟩ := by
            simp [linkCandidate, h0.1, h0.2, hres, hlen]
          rw [hcand]
          by_cases hseen : a.href ∈ seen
          · have hstep : extractLinksAux resolve baseUrl (a :: rest) seen =
                extractLinksAux resolve baseUrl rest seen := by
              simp only [extractLinksAux]
              rw [if_neg]
              intro hcon
              exact hcon.2.2 hseen
            rw [hstep]
            exact (ih seen).cons _
          · have hstep : extractLinksAux resolve baseUrl (a :: rest) seen =
                ⟨href, cleanText a.text⟩ ::
                  extractLinksAux resolve baseUrl rest (href :: seen) := by
              simp only [extractLinksAux]
              rw [if_pos ⟨h0.1, h0.2, hseen⟩]
              simp only [hres]
              rw [if_pos hlen]
            rw [hstep]
            exact (ih (href :: seen)).cons₂ _
        · have hcand : linkCandidate resolve baseUrl a = none := by
            simp [linkCandidate, h0.1, h0.2, hres, hlen]
          rw [hcand]
          have hstep : extractLinksAux resolve baseUrl (a :: rest) seen =
              extractLinksAux resolve baseUrl rest seen := by
            simp only [extractLinksAux]
            by_cases hc : a.href ≠ "" ∧ cleanText a.text ≠ "" ∧ a.href ∉ seen
            · rw [if_pos hc]
              simp only [hres]
              rw [if_neg hlen]
            · rw [if_neg hc]
          rw [hstep]
          exact ih seen

/-- C8: the four sequences never exceed their caps (10/20/15/10), the
body preview never exceeds 1000 characters, each capped sequence is a
prefix of the corresponding filtered sequence, and the filtered
image/link sequences follow document order (they are sublists of the
per-element candidates in document order). -/
theorem c8_caps_and_order (resolve : String → String → Option String)
    (baseUrl : String) (imgs : List ImgElem) (anchors : List AnchorElem)
    (hs : List HeadingElem) (ps : List String) (doc : Document) :
    (extractImages resolve baseUrl imgs).length ≤ 10 ∧
    (extractLinks resolve baseUrl anchors).length ≤ 20 ∧
    (extractHeadings hs).length ≤ 15 ∧
    (extractParagraphs ps).length ≤ 10 ∧
    (bodyPreview doc).length ≤ 1000 ∧
    extractImages resolve baseUrl imgs <+:
      extractImagesAux resolve baseUrl imgs [] ∧
    extractLinks resolve baseUrl anchors <+:
      extractLinksAux resolve baseUrl anchors [] ∧
    extractHeadings hs <+: extractHeadingsAll hs ∧
    extractParagraphs ps <+: extractParagraphsAll ps ∧
    extractImagesAux resolve baseUrl imgs [] <+
      imgs.filterMap (imgCandidate resolve baseUrl) ∧
    extractLinksAux resolve baseUrl anchors [] <+
      anchors.filterMap (linkCandidate resolve baseUrl) := by
  refine ⟨List.length_take_le _ _, List.length_take_le _ _,
    List.length_take_le _ _, List.length_take_le _ _, ?_,
    List.take_prefix _ _, List.take_prefix _ _, List.take_prefix _ _,
    List.take_prefix _ _, extractImagesAux_sublist resolve baseUrl imgs [],
    extractLinksAux_sublist resolve baseUrl anchors []⟩
  exact List.length_take_le 1000 (cleanText doc.bodyText).data

/-! ## Cache lemmas -/

theorem filter_ne_key_eq_self {α : Type} {kk : String}
    {l : List (String × α)} (h : ∀ q ∈ l, q.1 ≠ kk) :
    l.filter (fun q => q.1 ≠ kk) = l := by
  induction l with
  | nil => rfl
  | cons q t ih =>
    have hq : q.1 ≠ kk := h q (List.mem_cons_self _ _)
    simp only [List.filter_cons]
    rw [if_pos (by simp [hq])]
    rw [ih (fun x hx => h x (List.mem_cons_of_mem _ hx))]

theorem mapDelete_cons_self {α : Type} (p : String × α)
    (rest : List (String × α)) :
    mapDelete (p :: rest) p.1 = mapDelete rest p.1 := by
  simp [mapDelete, List.filter_cons]

/-! ## Claim C3 -/

/-- C3: inserting a 51st distinct key into a cache holding 50 distinct
keys evicts exactly the oldest-inserted entry (the head of the insertion
order, never access order): the result is the remaining 49 old entries,
in order, followed by the new entry, 50 entries in total. -/
theorem c3_insert_evicts_oldest {α : Type} (c : List (String × α))
    (k : String) (v : α) (hnodup : (c.map Prod.fst).Nodup)
    (hlen : c.length = 50) (hnew : mapHas c k = false) :
    cachePut c k v = c.tail ++ [(k, v)] ∧ (cachePut c k v).length = 50 := by
  have hnotin : ∀ q ∈ c, q.1 ≠ k := by
    intro q hq hqk
    have ht : mapHas c k = true := by
      simp only [mapHas, List.any_eq_true]
      exact ⟨q, hq, by simp [hqk]⟩
    rw [ht] at hnew
    simp at hnew
  have hset : mapSet c k v = c ++ [(k, v)] := by
    simp [mapSet, hnew]
  cases c with
  | nil => simp at hlen
  | cons p t =>
    simp only [List.map_cons, List.nodup_cons] at hnodup
    obtain ⟨hp, _⟩ := hnodup
    have hkp : k ≠ p.1 := fun he => hnotin p (List.mem_cons_self _ _) he.symm
    have heviction : cachePut (p :: t) k v = t ++ [(k, v)] := by
      rw [cachePut, hset, List.cons_append]
      have hlen51 : (p :: (t ++ [(k, v)])).length = 51 := by
        simp only [List.length_cons, List.length_append, List.length_nil]
        simp only [List.length_cons] at hlen
        omega
      rw [cacheEvict, if_pos (by rw [hlen51]; omega)]
      simp only [List.head?_cons]
      rw [mapDelete_cons_self]
      rw [mapDelete]
      refine filter_ne_key_eq_self ?_
      intro q hq
      rcases List.mem_append.mp hq with hq | hq
      · intro hqp
        exact hp (hqp ▸ List.mem_map_of_mem Prod.fst hq)
      · have hq' := List.mem_singleton.mp hq
        subst hq'
        exact hkp
    refine ⟨heviction, ?_⟩
    rw [heviction]
    simp only [List.length_append, List.length_cons, List.length_nil]
    simp only [List.length_cons] at hlen
    omega

/-- A concrete cache at capacity: 50 entries with distinct
single-character keys. -/
def cache50 : List (String × Nat) :=
  (List.range 50).map (fun i => (String.mk [Char.ofNat (65 + i)], i))

/-- C3 witness: the eviction theorem evaluated on a concrete cache of 50
distinct keys and a fresh 51st key. -/
theorem c3_witness :
    cachePut cache50 "new" 0 = cache50.tail ++ [("new", 0)] ∧
    (cachePut cache50 "new" 0).length = 50 :=
  c3_insert_evicts_oldest cache50 "new" 0 (by decide) (by decide) (by decide)

/-! ## Claim C6 -/

/-- C6: re-inserting an existing key into a cache at capacity (50 keys)
overwrites its value in place: no entry is evicted, and the key sequence
(and hence every key's eviction position) is unchanged. -/
theorem c6_reput_at_capacity {α : Type} (c : List (String × α)) (k : String)
    (v : α) (hlen : c.length = 50) (hk : mapHas c k = true) :
    cachePut c k v = c.map (fun p => if p.1 = k then (k, v) else p) ∧
    (cachePut c k v).map Prod.fst = c.map Prod.fst := by
  have hset : mapSet c k v = c.map (fun p => if p.1 = k then (k, v) else p) := by
    simp [mapSet, hk]
  have hlen' : (mapSet c k v).length = 50 := by
    rw [hset, List.length_map, hlen]
  have hput : cachePut c k v = c.map (fun p => if p.1 = k then (k, v) else p) := by
    rw [cachePut, cacheEvict, if_neg (by rw [hlen']; omega), hset]
  refine ⟨hput, ?_⟩
  rw [hput, List.map_map]
  apply List.map_congr_left
  intro p hp
  by_cases hpk : p.1 = k
  · simp [Function.comp, hpk]
  · simp [Function.comp, hpk]

/-- C6 witness: the re-put theorem evaluated on the concrete
at-capacity cache and one of its existing keys. -/
theorem c6_witness :
    cachePut cache50 "A" 7 =
      cache50.map (fun p => if p.1 = "A" then ("A", 7) else p) ∧
    (cachePut cache50 "A" 7).map Prod.fst = cache50.map Prod.fst :=
  c6_reput_at_capacity cache50 "A" 7 (by decide) (by decide)

/-! ## Claim C9 -/

/-- C9: the `/scrape` handler creates a cache entry only on a successful
fetch.  A failed fetch (thrown scrape error), an invalid URL, or a
missing URL leaves the cache state unchanged; a request whose key is
already cached returns the stored record and leaves the cache unchanged
for EVERY fetch outcome (no re-fetch, no overwrite); an uncached valid
key with a successful fetch stores exactly the fetched record. -/
theorem c9_cache_write_discipline {α : Type} (c : List (String × α))
    (url : String) (f : FetchOutcome α) (e : String) (v : α) :
    ((scrapePost c url true (FetchOutcome.err e)).1 = c) ∧
    ((scrapePost c url false f).1 = c) ∧
    ((scrapePost c "" true f).1 = c) ∧
    (url ≠ "" → mapGet c url = some v →
      scrapePost c url true f = (c, Response.okJson v)) ∧
    (url ≠ "" → mapGet c url = none →
      scrapePost c url true (FetchOutcome.ok v) =
        (cachePut c url v, Response.okJson v)) := by
  refine ⟨?_, ?_, ?_, ?_, ?_⟩
  · by_cases hu : url = ""
    · simp [scrapePost, hu]
    · cases hg : mapGet c url with
      | some w => simp [scrapePost, hu, hg]
      | none => simp [scrapePost, hu, hg]
  · by_cases hu : url = "" <;> simp [scrapePost, hu]
  · simp [scrapePost]
  · intro hu hg
    simp [scrapePost, hu, hg]
  · intro hu hg
    simp [scrapePost, hu, hg]

/-- C9 witness: a cache hit returning the stored record unchanged under
a failing fetch, and a miss with a successful fetch storing the record. -/
theorem c9_witness :
    scrapePost [("http://a.com", 1)] "http://a.com" true
        (FetchOutcome.err "boom") =
      ([("http://a.com", 1)], Response.okJson 1) ∧
    scrapePost ([] : List (String × Nat)) "http://b.com" true
        (FetchOutcome.ok 5) =
      (cachePut [] "http://b.com" 5, Response.okJson 5) :=
  ⟨(c9_cache_write_discipline [("http://a.com", 1)] "http://a.com"
      (FetchOutcome.err "boom") "boom" 1).2.2.2.1 (by decide) (by decide),
   (c9_cache_write_discipline ([] : List (String × Nat)) "http://b.com"
      (FetchOutcome.ok 5) "x" 5).2.2.2.2 (by decide) (by decide)⟩

/-! ## Claim C4 -/

/-- Modelled from the spec: the "standard URL-resolution rules" of the
platform resolver `new URL(ref, base)` (an external library, not part of
the repository), restricted to the reference shapes this file
exercises — a scheme-less path reference against an origin-form base:
a `/`-rooted reference resolves to origin ++ reference, and any other
scheme-less reference resolves to origin ++ "/" ++ reference. -/
def specResolve (ref base : String) : Option String :=
  if strStartsWith ref "/" then some (base ++ ref)
  else some (base ++ "/" ++ ref)

/-- C4 counterexample: the src attribute `httpfoo.png` is a relative
reference — the standard resolver sends it to
`http://example.com/httpfoo.png` — but because it begins with the
characters `http` the source passes it through unresolved, so the
extracted record keeps the relative string, refuting the claim that
every relative reference is resolved against the base. -/
theorem c4_counterexample :
    extractImages specResolve "http://example.com"
        [⟨"httpfoo.png", "", "", ""⟩] =
      [⟨"httpfoo.png", ""⟩] ∧
    specResolve "httpfoo.png" "http://example.com" =
      some "http://example.com/httpfoo.png" ∧
    ("httpfoo.png" : String) ≠ "http://example.com/httpfoo.png" := by
  decide

/-- If `s` starts with `p` and `p`'s first character is `c`, then `s`'s
first character is also `c`. -/
theorem data_cons_of_startsWith {s p : String} {c : Char} {cs : List Char}
    (hp : p.data = c :: cs) (h : strStartsWith s p = true) :
    ∃ ds, s.data = c :: ds := by
  unfold strStartsWith at h
  rw [hp] at h
  cases hd : s.data with
  | nil => rw [hd] at h; simp [List.isPrefixOf] at h
  | cons b bs =>
    rw [hd] at h
    simp only [List.isPrefixOf, Bool.and_eq_true, beq_iff_eq] at h
    exact ⟨bs, by rw [h.1]⟩

/-- A string whose first character is not `/` does not start with `/`. -/
theorem not_slash_of_data_cons {s : String} {c : Char} {ds : List Char}
    (hs : s.data = c :: ds) (hc : c ≠ '/') : strStartsWith s "/" = false := by
  unfold strStartsWith
  have hsl : ("/" : String).data = '/' :: [] := rfl
  rw [hsl, hs]
  simp [List.isPrefixOf, Ne.symm hc]

/-- C4 amended: a `/`-rooted reference is resolved by prefixing the
origin-form base; a reference that starts with `http` (or, for links,
`mailto`/`tel`) is passed through unresolved even when it is relative;
every other reference is resolved against the base by the platform
resolver; and a reference whose resolution fails is silently dropped —
the loop continues with the remaining items, the extraction never
fails as a whole. -/
theorem c4_amended (resolve : String → String → Option String)
    (baseUrl src : String) (img : ImgElem) (rest : List ImgElem)
    (seen : List String) (a : AnchorElem) (arest : List AnchorElem)
    (aseen : List String) :
    (strStartsWith src "/" = true →
      resolveImgSrc resolve baseUrl src = some (baseUrl ++ src) ∧
      resolveHref resolve baseUrl src = some (baseUrl ++ src)) ∧
    (strStartsWith src "/" = false → strStartsWith src "http" = false →
      resolveImgSrc resolve baseUrl src = resolve src baseUrl) ∧
    (strStartsWith src "/" = false → strStartsWith src "http" = false →
      strStartsWith src "mailto" = false → strStartsWith src "tel" = false →
      resolveHref resolve baseUrl src = resolve src baseUrl) ∧
    (strStartsWith src "http" = true →
      resolveImgSrc resolve baseUrl src = some src) ∧
    (strStartsWith src "http" = true →
      resolveHref resolve baseUrl src = some src) ∧
    (strStartsWith src "mailto" = true →
      resolveHref resolve baseUrl src = some src) ∧
    (strStartsWith src "tel" = true →
      resolveHref resolve baseUrl src = some src) ∧
    (resolveImgSrc resolve baseUrl (imgRawSrc img) = none →
      extractImagesAux resolve baseUrl (img :: rest) seen =
        extractImagesAux resolve baseUrl rest seen) ∧
    (resolveHref resolve baseUrl a.href = none →
      extractLinksAux resolve baseUrl (a :: arest) aseen =
        extractLinksAux resolve baseUrl arest aseen) := by
  refine ⟨?_, ?_, ?_, ?_, ?_, ?_, ?_, ?_, ?_⟩
  · intro h
    exact ⟨by simp [resolveImgSrc, h], by simp [resolveHref, h]⟩
  · intro h1 h2
    simp [resolveImgSrc, h1, h2]
  · intro h1 h2 h3 h4
    simp [resolveHref, h1, h2, h3, h4]
  · intro h
    have h1 := not_slash_of_startsWith_http h
    simp [resolveImgSrc, h, h1]
  · intro h
    have h1 := not_slash_of_startsWith_http h
    simp [resolveHref, h, h1]
  · intro h
    obtain ⟨ds, hds⟩ := data_cons_of_startsWith
      (rfl : ("mailto" : String).data = 'm' :: 'a' :: 'i' :: 'l' :: 't' :: 'o' :: []) h
    have h1 := not_slash_of_data_cons hds (by decide)
    simp [resolveHref, h, h1]
  · intro h
    obtain ⟨ds, hds⟩ := data_cons_of_startsWith
      (rfl : ("tel" : String).data = 't' :: 'e' :: 'l' :: []) h
    have h1 := not_slash_of_data_cons hds (by decide)
    simp [resolveHref, h, h1]
  · intro h
    simp only [extractImagesAux]
    by_cases hc : imgRawSrc img ≠ "" ∧ imgRawSrc img ∉ seen
    · rw [if_pos hc]
      simp only [h]
    · rw [if_neg hc]
  · intro h
    simp only [extractLinksAux]
    by_cases hc : a.href ≠ "" ∧ cleanText a.text ≠ "" ∧ a.href ∉ aseen
    · rw [if_pos hc]
      simp only [h]
    · rw [if_neg hc]

/-- C4 amended witness: the resolution rules and the single-item-drop
behaviour evaluated at concrete inputs — a `/`-rooted source, a
scheme-less source handed to the resolver, the unresolved pass-through
of an `http`-, `mailto`- and `tel`-prefixed href, and a failing
resolution that skips exactly one element. -/
theorem c4_witness :
    resolveImgSrc noResolve "http://x.com" "/p.png" =
      some "http://x.com/p.png" ∧
    resolveImgSrc noResolve "http://x.com" "img/p.png" =
      noResolve "img/p.png" "http://x.com" ∧
    resolveHref noResolve "http://x.com" "http://y.com/q" =
      some "http://y.com/q" ∧
    resolveHref noResolve "http://x.com" "mailto:bob@x.com" =
      some "mailto:bob@x.com" ∧
    resolveHref noResolve "http://x.com" "tel:+123456" =
      some "tel:+123456" ∧
    extractImagesAux noResolve "http://x.com" [⟨"img/p.png", "", "", ""⟩] [] =
      extractImagesAux noResolve "http://x.com" [] [] :=
  ⟨((c4_amended noResolve "http://x.com" "/p.png" ⟨"img/p.png", "", "", ""⟩
      [] [] ⟨"", ""⟩ [] []).1 (by decide)).1,
   (c4_amended noResolve "http://x.com" "img/p.png" ⟨"img/p.png", "", "", ""⟩
      [] [] ⟨"", ""⟩ [] []).2.1 (by decide) (by decide),
   (c4_amended noResolve "http://x.com" "http://y.com/q"
      ⟨"img/p.png", "", "", ""⟩ [] [] ⟨"", ""⟩ [] []).2.2.2.2.1 (by decide),
   (c4_amended noResolve "http://x.com" "mailto:bob@x.com"
      ⟨"img/p.png", "", "", ""⟩ [] [] ⟨"", ""⟩ [] []).2.2.2.2.2.1 (by decide),
   (c4_amended noResolve "http://x.com" "tel:+123456"
      ⟨"img/p.png", "", "", ""⟩ [] [] ⟨"", ""⟩ [] []).2.2.2.2.2.2.1 (by decide),
   (c4_amended noResolve "http://x.com" "x" ⟨"img/p.png", "", "", ""⟩
      [] [] ⟨"", ""⟩ [] []).2.2.2.2.2.2.2.1 (by decide)⟩

end Scrapper
